import Mathlib

/-!
Verification development for the ROI/region subsystem of the VPNL
FijiUpdateSite repository (FijiPyLib/src/main/resources/ROITools.py and its
collaborator ImageTools/ImageProcessing.py).

A Fiji region of interest (ROI) is modelled by the set of pixels it covers,
`Region := Finset (ℤ × ℤ)`.  Float-valued quantities of the Jython source
(areas, widths, rotation angles, Dice/Jaccard values) are modelled by `ℚ`;
Python `float('nan')` results are modelled as `none : Option ℚ`.  Jython
run-time exceptions are modelled by an explicit error type threaded through
`Except`.  External ImageJ geometric primitives (ROI rotation and
rasterisation, `RoiEnlarger`, the `Fit Rectangle` command) are collected in a
parameter structure `IJGeom`; the concrete instance `axisGeom` gives their
exact semantics for axis-aligned (rotation 0), integrally positioned squares.
-/

namespace ROITools

/-- A pixel position on the image canvas. -/
abbrev Pix := ℤ × ℤ

/-- The set of pixels covered by a Fiji ROI. -/
abbrev Region := Finset Pix

/-- Jython run-time exceptions raised by the code paths modelled here.
`indexError` is the `IndexError` raised by indexing into an empty Jython
list (this is what realises the spec's `EmptyInputError`); `typeError` is the
`TypeError` raised by slicing a non-list object; `attributeError` is raised by
calling a method on `None`; `nullPointer` is a Java NPE from handing `None` to
an ImageJ API; `nonTermination` is not a Jython error: it marks exhaustion of
the explicit iteration budget used to model the `while` loop of
`gridOfFields.__init__`. -/
inductive PyErr where
  | indexError
  | typeError
  | attributeError
  | nullPointer
  | nonTermination
deriving DecidableEq, Repr

deriving instance DecidableEq for Except

/-- Smallest x-coordinate of a pixel of `R` (0 for the empty region). -/
def minX (R : Region) : ℤ := (R.image Prod.fst).min.untop' 0

/-- Largest x-coordinate of a pixel of `R` (0 for the empty region). -/
def maxX (R : Region) : ℤ := (R.image Prod.fst).max.unbot' 0

/-- Smallest y-coordinate of a pixel of `R` (0 for the empty region). -/
def minY (R : Region) : ℤ := (R.image Prod.snd).min.untop' 0

/-- Largest y-coordinate of a pixel of `R` (0 for the empty region). -/
def maxY (R : Region) : ℤ := (R.image Prod.snd).max.unbot' 0

/-- The `Roi.getFloatWidth()` of a pixel-aligned ROI: the width of its bounding
box, counting pixels as unit squares. -/
def floatWidth (R : Region) : ℚ := if R.Nonempty then ((maxX R - minX R + 1 : ℤ) : ℚ) else 0

/-- The `Roi.getFloatHeight()` of a pixel-aligned ROI. -/
def floatHeight (R : Region) : ℚ := if R.Nonempty then ((maxY R - minY R + 1 : ℤ) : ℚ) else 0

/-- The `getFloatWidth() * getFloatHeight()` bounding-box area estimate that
ROITools.py uses repeatedly (lines 286, 326, 501, 621-622). -/
def bboxArea (R : Region) : ℚ := floatWidth R * floatHeight R

/-- ROITools.py lines 706-734, `getIntersectingROI(ROIs)`: left fold of
`ShapeRoi.and` over the list, seeded with `ShapeRoi(ROIs[0])`.  On an empty
list the source would raise `IndexError` at `ROIs[0]`; no call site reached by
the claims passes an empty list, so that branch is given the junk value `∅`
here (the `combineROIs` model below keeps the error explicit instead). -/
def getIntersectingROI (ROIs : List Region) : Region :=
  match ROIs with
  | [] => ∅
  | R0 :: rest => rest.foldl (fun union ROI => ROI ∩ union) R0

/-- ROITools.py lines 1062-1093, `combineROIs(ROIs)`: left fold of
`ShapeRoi.or` over the list, seeded with `ShapeRoi(ROIs[0])`; with a single
input the loop body never runs and the seed is returned unchanged.  On an
empty list, `ROIs[0]` raises `IndexError`. -/
def combineROIs (ROIs : List Region) : Except PyErr Region :=
  match ROIs with
  | [] => .error .indexError
  | R0 :: rest => .ok (rest.foldl (fun combined ROI => combined ∪ ROI) R0)

/-- ROITools.py lines 599-627, `isContained(containedROI, containingROI)` at
pixel-aligned arguments: intersect the two ROIs, estimate the area of the
intersection and of `containedROI` by bounding-box width times height, and
answer whether the relative difference of the two estimates is strictly below
1%. -/
def isContained (containedROI containingROI : Region) : Bool :=
  let ROIUnion := getIntersectingROI [containedROI, containingROI]
  let ROIUnionArea := bboxArea ROIUnion
  let containedROIArea := bboxArea containedROI
  decide (|ROIUnionArea - containedROIArea| / containedROIArea < 1 / 100)

/-- ROITools.py lines 1432-1476: the three point counts computed by
`getDC_JI` from the two extracted non-blank ROIs.  `none` stands for a blank
segmentation, where `selectNonBlackRegion(seg, False)` returned Jython `None`
(nothing above threshold); a returned ROI covers at least one pixel.  The
counts are `(segIntersect, segUnion, totSegArea)`, each a Python float. -/
def segCounts (ROI1 ROI2 : Option Region) : Except PyErr (ℚ × ℚ × ℚ) :=
  match ROI1, ROI2 with
  | none, none => .ok (0, 0, 0)
  | none, some r2 => .ok (0, (r2.card : ℚ), (r2.card : ℚ))
  | some r1, none => .ok (0, (r1.card : ℚ), (r1.card : ℚ))
  | some r1, some r2 =>
    match combineROIs [r1, r2] with
    | .error e => .error e
    | .ok segUnionROI =>
      .ok (((getIntersectingROI [r1, r2]).card : ℚ), ((segUnionROI.card : ℚ)),
        (r1.card : ℚ) + (r2.card : ℚ))

/-- ROITools.py lines 1373-1499, `getDC_JI(seg1, seg2, compareForeground,
window2compare)` from the point where the two non-blank ROIs have been
extracted.  `ROI1`/`ROI2` are the results of `selectNonBlackRegion(seg_i,
False)` (`none` when segmentation `i` is blank); `canvas1`/`canvas2` are the
full pixel canvases of the two segmentation images, used only by
`Roi.getInverse` in the background branch.  `getContainedFloatPoints().npoints`
is the covered pixel count.  The result is `(DC, JI)` (the source returns the
list `[DC, JI]`), with `none` standing for `float('nan')`. -/
def getDC_JI (ROI1 ROI2 : Option Region) (canvas1 canvas2 : Region)
    (compareForeground : Bool) (window2compare : Option Region) :
    Except PyErr (Option ℚ × Option ℚ) := do
  let (ROI1, ROI2) ←
    if compareForeground then pure (ROI1, ROI2)
    else
      match window2compare with
      | none =>
        -- `ShapeRoi(None)` inside `getIntersectingROI` raises a Java NPE
        Except.error PyErr.nullPointer
      | some w =>
        let totBlankROI1 := match ROI1 with | some r => canvas1 \ r | none => w
        let totBlankROI2 := match ROI2 with | some r => canvas2 \ r | none => w
        pure (some (getIntersectingROI [totBlankROI1, w]),
          some (getIntersectingROI [totBlankROI2, w]))
  let (segIntersect, segUnion, totSegArea) ← segCounts ROI1 ROI2
  let JI : Option ℚ := if segUnion > 0 then some (segIntersect / segUnion) else none
  let DC : Option ℚ := if totSegArea > 0 then some ((2 * segIntersect) / totSegArea) else none
  return (DC, JI)

/-- The slice of an ImageJ `Calibration` object used by `getROIArea`:
`getX(v) = v * pixelWidth` (physical units per pixel along x) and the unit
label `getUnit()`, modelled as a list of characters. -/
structure Calibration where
  pixelWidth : ℚ
  unit : List Char
deriving DecidableEq

/-- ImageJ `Calibration.getX(value) = value * pixelWidth`. -/
def calGetX (imgCal : Calibration) (value : ℚ) : ℚ := value * imgCal.pixelWidth

/-- ImageJ `Roi.getStatistics().area`: the number of pixels covered by the ROI mask
(uncalibrated statistics, so area equals the pixel count). -/
def roiStatisticsArea (R : Region) : ℚ := (R.card : ℚ)

/-- The non-ASCII micro sign `u'\xb5'` tested for by `getROIArea`. -/
def microSign : Char := Char.ofNat 181

/-- The characters of the literal `'_Squared'` appended to the unit label. -/
def squaredSuffix : List Char := ['_', 'S', 'q', 'u', 'a', 'r', 'e', 'd']

/-- Python `str.replace(u'\xb5', u'u')` applied to one character. -/
def microToU (c : Char) : Char := if c = microSign then 'u' else c

/-- ROITools.py lines 997-1055, `getROIArea(ROI, img)` with the calibration
already extracted (the `isinstance` branch at lines 1026-1034 only chooses
between an image and its calibration): area is `ROIStats.area * getX(1)**2`
and the unit label is `getUnit() + '_Squared'` with every micro sign replaced
by `'u'` when one is present. -/
def getROIArea (ROI : Region) (imgCal : Calibration) : ℚ × List Char :=
  let area := roiStatisticsArea ROI * (calGetX imgCal 1) ^ 2
  let units := imgCal.unit ++ squaredSuffix
  let units := if microSign ∈ units then units.map microToU else units
  (area, units)

/-- A Fiji ROI object as held by the ROI Manager: either a non-composite
selection or a composite (`ShapeRoi`) made of connected pieces
(`ShapeRoi.getRois()`). -/
inductive Froi where
  | simple (pts : Region)
  | composite (pieces : List Region)
deriving DecidableEq

/-- The pixel set covered by a manager ROI. -/
def Froi.pts : Froi → Region
  | .simple p => p
  | .composite ps => ps.foldl (fun acc p => acc ∪ p) ∅

/-- The test `Roi.getTypeAsString() == 'Composite'`. -/
def Froi.isComposite : Froi → Bool
  | .simple _ => false
  | .composite _ => true

/-- The duck-typed value returned by `getOpenROIs` (ROITools.py lines
778-809): Jython `None` when the manager is empty, the single `Roi` object
when it holds exactly one, otherwise the list of ROIs. -/
inductive OpenROIs where
  | nothing
  | one (ROI : Froi)
  | many (ROIs : List Froi)
deriving DecidableEq

/-- ROITools.py lines 778-809, `getOpenROIs()` on a manager holding `mgr`. -/
def getOpenROIs (mgr : List Froi) : OpenROIs :=
  match mgr with
  | [] => .nothing
  | [ROI] => .one ROI
  | ROIs => .many ROIs

/-- ROITools.py lines 816-839, `addROIs2Manager(ROIs)`: a list is added
element by element, a single ROI is added directly (`rm.addRoi` appends). -/
def addROIs2Manager (mgr : List Froi) (ROIs : Froi ⊕ List Froi) : List Froi :=
  match ROIs with
  | .inr list => mgr ++ list
  | .inl ROI => mgr ++ [ROI]

/-- The function `addROIs2Manager` applied to a stored `getOpenROIs` result, as done when
restoring the manager.  `rm.addRoi(None)` (the `nothing` case) falls back to
the active image's current selection inside ImageJ, an environment-dependent
effect; it is modelled as leaving the manager unchanged and is never exercised
by the theorems below, which all start from a non-empty manager. -/
def addOpenROIs (mgr : List Froi) (ROIs : OpenROIs) : List Froi :=
  match ROIs with
  | .one ROI => mgr ++ [ROI]
  | .many list => mgr ++ list
  | .nothing => mgr

/-- Python `max(list)`: greatest element; raises `ValueError` on an empty
list, a case never reached below (`0` is junk). -/
def pyMax (l : List ℚ) : ℚ :=
  match l with
  | [] => 0
  | x :: xs => xs.foldl max x

/-- ROITools.py lines 465-515, `cleanUpROI(ROI, img)`: stash and clear the
manager, add `ROI`, run the manager's `Split` command (which decomposes the
image's *composite* selection into its pieces and adds each to the manager;
for a non-composite selection it reports an error and adds nothing), take
`getOpenROIs()[1:]`, keep the split ROI with the largest bounding-box area
(`list.index(max(...))` picks the first maximum), then restore the manager.
When `ROI` is not composite the manager still holds exactly one object, so
`getOpenROIs()` returns a bare `Roi` and slicing it raises `TypeError`.
Returns the cleaned ROI together with the final manager contents. -/
def cleanUpROI (mgr : List Froi) (ROI : Froi) : Except PyErr (Froi × List Froi) :=
  let prevOpenROIs := getOpenROIs mgr
  let mgr1 : List Froi := []
  let mgr2 := addROIs2Manager mgr1 (Sum.inl ROI)
  let mgr3 := match ROI with
    | .composite pieces => mgr2 ++ pieces.map Froi.simple
    | .simple _ => mgr2
  match getOpenROIs mgr3 with
  | .many ROIs =>
    let splitROIs := ROIs.drop 1
    let splitROIAreas := splitROIs.map (fun ROI => bboxArea ROI.pts)
    let cleanedUpROI :=
      splitROIs.getD (splitROIAreas.findIdx (fun a => a == pyMax splitROIAreas)) (.simple ∅)
    let mgr4 : List Froi := []
    let mgr5 := addOpenROIs mgr4 prevOpenROIs
    .ok (cleanedUpROI, mgr5)
  | _ => .error .typeError

/-- ROITools.py lines 407-458, `selectNonBlackRegion(img, cleanUpSelection)`
after the external `ThresholdToSelection.convert` step: `nonBlackROI` is the
selection of pixels strictly above the image minimum, or `none` when no pixel
is (a uniform image).  The `Fill ROI holes` command only edits the selection
displayed on the image, not the local `nonBlackROI` that is returned.  With
`cleanUpSelection` set and a `None` selection, `getTypeAsString()` raises
`AttributeError`; with a composite selection the result is `cleanUpROI`'s;
otherwise the raw selection is returned unchanged. -/
def selectNonBlackRegion (mgr : List Froi) (nonBlackROI : Option Froi)
    (cleanUpSelection : Bool) : Except PyErr (Option Froi × List Froi) :=
  match nonBlackROI with
  | none =>
    if cleanUpSelection then .error .attributeError else .ok (none, mgr)
  | some ROI =>
    if cleanUpSelection && ROI.isComposite then
      match cleanUpROI mgr ROI with
      | .ok (cleaned, mgrOut) => .ok (some cleaned, mgrOut)
      | .error e => .error e
    else .ok (some ROI, mgr)

/-- ROITools.py lines 846-894, `saveROIs(ROIs, outFilePath)`: directory
creation and `rm.runCommand('Save', ...)` touch only the file system; the
manager is stashed, cleared, loaded with `ROIs`, cleared again and restored
when it was non-empty before the call.  Returns the final manager state. -/
def saveROIs (mgr : List Froi) (ROIs : Froi ⊕ List Froi) : List Froi :=
  let openROIs := getOpenROIs mgr
  let mgr1 : List Froi := []
  let _mgr2 := addROIs2Manager mgr1 ROIs
  let mgr3 : List Froi := []
  match openROIs with
  | .nothing => mgr3
  | o => addOpenROIs mgr3 o

/-- ROITools.py lines 901-938, `openROIFile(ROIFile)`: `fileROIs` is the list
stored in the file that `rm.runCommand('Open', ...)` loads into the cleared
manager.  Returns the function's result (`getOpenROIs()` on the loaded
manager) together with the final manager state. -/
def openROIFile (mgr : List Froi) (fileROIs : List Froi) : OpenROIs × List Froi :=
  let openROIs := getOpenROIs mgr
  let mgr1 : List Froi := []
  let mgr2 := mgr1 ++ fileROIs
  let ROIsFromFile := getOpenROIs mgr2
  let mgr3 : List Froi := []
  let mgr4 := match openROIs with
    | .nothing => mgr3
    | o => addOpenROIs mgr3 o
  (ROIsFromFile, mgr4)

/-- Python's modulo on numbers, `a % b = a - b * floor(a / b)` (the result
takes the sign of the divisor).  `gridOfFields.__init__` line 228 computes
`rotation % -90`. -/
def pymod (a b : ℚ) : ℚ := a - b * ⌊a / b⌋

/-- The vector ROI built by `makeRotatedR0I` (ROITools.py lines 522-548): a
square `Roi(topLeftPoint[0], topLeftPoint[1], width, width)` rotated by
`rotation` degrees about `topLeftPoint` by `RoiRotator`, plus the name later
attached with `setName`. -/
structure FieldRoi where
  topLeft : ℚ × ℚ
  width : ℚ
  rotation : ℚ
  name : String
deriving DecidableEq

/-- ROITools.py lines 522-548, `makeRotatedR0I(topLeftPoint, width,
rotation)`. -/
def makeRotatedR0I (topLeftPoint : ℚ × ℚ) (width : ℚ) (rotation : ℚ) : FieldRoi :=
  { topLeft := topLeftPoint, width := width, rotation := rotation, name := "" }

/-- The integer top-left point of a pixel-aligned region: smallest x
coordinate, and among pixels attaining it, smallest y. -/
def intTopLeft (R : Region) : ℤ × ℤ :=
  (minX R, ((R.filter (fun p => p.1 = minX R)).image Prod.snd).min.untop' 0)

/-- ROITools.py lines 556-591, `getTopLeftPoint(ROI)` for a pixel-aligned
region: the outline polygon's smallest x value, and the smallest y value among
the outline points attaining it, as a pair of floats. -/
def getTopLeftPoint (R : Region) : ℚ × ℚ :=
  (((intTopLeft R).1 : ℚ), ((intTopLeft R).2 : ℚ))

/-- The external ImageJ geometric primitives that the tiler delegates to
(`RoiRotator`/`ShapeRoi` rasterisation, `Roi.getFloatWidth/Height`, and the
`RoiEnlarger.enlarge` + `Fit Rectangle` + `ImagePlus.cut()` sequence of
`cropNewField`).  The spec (section 6) treats the raster/vector conversions as
supplied by the host environment; `axisGeom` below instantiates them exactly
for axis-aligned integral squares. -/
structure IJGeom where
  raster : FieldRoi → Region
  floatW : FieldRoi → ℚ
  floatH : FieldRoi → ℚ
  cropPixels : FieldRoi → ℤ → Region

/-- ROITools.py lines 599-627 as called inside the tiling loop (line 303),
where `containedROI` is the rotated square vector ROI and `containingROI` the
raster-derived remaining region: same code as `isContained` above, with the
candidate's float width and height taken from the vector ROI. -/
def isContainedField (g : IJGeom) (containedROI : FieldRoi) (containingROI : Region) : Bool :=
  let ROIUnion := getIntersectingROI [g.raster containedROI, containingROI]
  let ROIUnionArea := bboxArea ROIUnion
  let containedROIArea := g.floatW containedROI * g.floatH containedROI
  decide (|ROIUnionArea - containedROIArea| / containedROIArea < 1 / 100)

/-- ROITools.py lines 356-399, `gridOfFields.cropNewField(topLeftPoint,
cropWidth)`: build a rotated square of width `ceil(cropWidth/2.0)` at the
anchor, enlarge it by `floor(cropWidth/2.0)` (then `Fit Rectangle`), clear the
covered pixels from the segmentation mask with `cut()`, and re-derive
`imgROI` from the mask via `ImageProcessing.segmentation2ROIs` (particle
analysis: Jython `None` for an empty mask, one ROI per connected component
otherwise, a list being merged by `combineROIs`) — at the pixel level, the
remaining mask points.  Returns the new mask and the new `imgROI`. -/
def cropNewField (g : IJGeom) (rotation : ℚ) (mask : Region)
    (topLeftPoint : ℚ × ℚ) (cropWidth : ℤ) : Region × Option Region :=
  let field4Cropping := makeRotatedR0I topLeftPoint ((⌈(cropWidth : ℚ) / 2⌉ : ℤ) : ℚ) rotation
  let cleared := g.cropPixels field4Cropping ⌊(cropWidth : ℚ) / 2⌋
  let newMask := mask \ cleared
  (newMask, if newMask.Nonempty then some newMask else none)

/-- The `field_size` and `field_overlap` constructor arguments of
`gridOfFields` (integer pixel counts). -/
structure GridCfg where
  field_size : ℤ
  field_overlap : ℤ
deriving DecidableEq

/-- The loop state of `gridOfFields.__init__`: the current `self.imgROI`, the
foreground of the segmentation mask `self.imgSegMask`, the accumulated
`self.ROIs` and the field counter `iFov`. -/
structure GridState where
  imgROI : Region
  mask : Region
  ROIs : List FieldRoi
  iFov : ℕ
deriving DecidableEq

/-- One iteration of the `while imgROIArea > fieldArea` loop body
(ROITools.py lines 293-326): take the top-left point of `imgROI`, build a
full-width candidate field there, and either accept it (name it
`Field-<iFov>`, append it, crop with `fieldPlusOverlap`) or reject it (crop
with `field_overlap` only); then re-derive `imgROI` from the cut mask.  When
the cut empties the mask, `segmentation2ROIs` returns `None` and the
subsequent `self.imgROI.getFloatWidth()` at line 326 raises
`AttributeError`. -/
def gridStep (g : IJGeom) (rotation : ℚ) (cfg : GridCfg) (st : GridState) :
    Except PyErr GridState :=
  let fullFieldWidth := cfg.field_size + 2 * cfg.field_overlap
  let fieldPlusOverlap := cfg.field_size + cfg.field_overlap
  let topLPt := getTopLeftPoint st.imgROI
  let newField := makeRotatedR0I topLPt (fullFieldWidth : ℚ) rotation
  let accepted := isContainedField g newField st.imgROI
  let newROIs :=
    if accepted then st.ROIs ++ [{ newField with name := "Field-" ++ toString st.iFov }]
    else st.ROIs
  let newIFov := if accepted then st.iFov + 1 else st.iFov
  let cropWidth := if accepted then fieldPlusOverlap else cfg.field_overlap
  let crop := cropNewField g rotation st.mask topLPt cropWidth
  match crop.2 with
  | some newImgROI =>
    .ok { imgROI := newImgROI, mask := crop.1, ROIs := newROIs, iFov := newIFov }
  | none => .error .attributeError

/-- The `while imgROIArea > fieldArea` loop (ROITools.py lines 293-326),
with the current `imgROIArea = imgROI.getFloatWidth() * getFloatHeight()`
re-tested before each iteration.  `fuel` bounds the number of iterations;
exhausting it yields the marker `nonTermination`. -/
def gridLoop (g : IJGeom) (rotation : ℚ) (cfg : GridCfg) :
    ℕ → GridState → Except PyErr GridState
  | fuel, st =>
    if bboxArea st.imgROI > (((cfg.field_size + 2 * cfg.field_overlap) ^ 2 : ℤ) : ℚ) then
      match fuel with
      | 0 => .error .nonTermination
      | fuel' + 1 =>
        match gridStep g rotation cfg st with
        | .error e => .error e
        | .ok st' => gridLoop g rotation cfg fuel' st'
    else .ok st

/-- The attributes of a constructed `gridOfFields` object. -/
structure GridOfFields where
  rotation : ℚ
  ROIs : List FieldRoi
  fieldBoundary : FieldRoi
deriving DecidableEq

/-- ROITools.py lines 225-351 after the rotation has been normalised:
`imgROI0` is the output of `selectNonBlackRegion` on the normalised max
projection, which also seeds the segmentation mask (`createRoiMask`); after
the loop, `self.ROIs[0]` raises `IndexError` on an empty field list, and
otherwise the field boundary is a square of side `field_size` centred in the
first field's local crop frame, rotated by the stored rotation about that
centre. -/
def gridOfFieldsMain (g : IJGeom) (imgROI0 : Region) (field_size field_overlap : ℤ)
    (rot : ℚ) (fuel : ℕ) : Except PyErr GridOfFields := do
  let st0 : GridState := { imgROI := imgROI0, mask := imgROI0, ROIs := [], iFov := 1 }
  let cfg : GridCfg := { field_size := field_size, field_overlap := field_overlap }
  let stF ← gridLoop g rot cfg fuel st0
  match stF.ROIs with
  | [] => .error .indexError
  | f0 :: _ =>
    let fovCenter := (g.floatW f0 / 2, g.floatH f0 / 2)
    let halfFieldSize := (field_size : ℚ) / 2
    let fieldBoundary : FieldRoi :=
      { topLeft := (fovCenter.1 - halfFieldSize, fovCenter.2 - halfFieldSize),
        width := (field_size : ℚ), rotation := rot, name := "" }
    .ok { rotation := rot, ROIs := stF.ROIs, fieldBoundary := fieldBoundary }

/-- ROITools.py lines 225-351, `gridOfFields.__init__(img, field_size,
field_overlap, rotation)`: the rotation argument is normalised to
`rotation % -90` (line 228) before any use. -/
def gridOfFieldsInit (g : IJGeom) (imgROI0 : Region) (field_size field_overlap : ℤ)
    (rotation : ℚ) (fuel : ℕ) : Except PyErr GridOfFields :=
  gridOfFieldsMain g imgROI0 field_size field_overlap (pymod rotation (-90)) fuel

/-- The axis-aligned rectangle of pixels `[x0, x0+w) × [y0, y0+h)`. -/
def intRect (x0 y0 w h : ℤ) : Region :=
  (Finset.Ico x0 (x0 + w)) ×ˢ (Finset.Ico y0 (y0 + h))

/-- The exact ImageJ geometry for rotation 0 and integral coordinates: the
rotated square degenerates to the axis-aligned square of the given width (its
float width and height are the square's width), `RoiEnlarger.enlarge` grows a
rectangle by `n` pixels on every side, and `Fit Rectangle` is the identity on
rectangles. -/
def axisGeom : IJGeom where
  raster f := intRect ⌊f.topLeft.1⌋ ⌊f.topLeft.2⌋ ⌊f.width⌋ ⌊f.width⌋
  floatW f := f.width
  floatH f := f.width
  cropPixels f n :=
    intRect (⌊f.topLeft.1⌋ - n) (⌊f.topLeft.2⌋ - n) (⌊f.width⌋ + 2 * n) (⌊f.width⌋ + 2 * n)

/-! Concrete regions and tiling states used by the closed evaluations. -/

/-- A 4×4 candidate square at the origin. -/
def cexCand : Region := intRect 0 0 4 4

/-- An L-shaped container: the left column and bottom row of `cexCand`.  Its
intersection with `cexCand` spans the candidate's full bounding box while
covering only 7 of its 16 pixels. -/
def cexCont : Region := intRect 0 0 1 4 ∪ intRect 0 3 4 1

/-- A 2×2 square strictly inside `bigSq`. -/
def smallSq : Region := intRect 1 1 2 2

/-- A 4×4 square containing `smallSq`. -/
def bigSq : Region := intRect 0 0 4 4

/-- A relevant region consisting of a single pixel: far smaller than one
field's area for any realistic field size. -/
def onePixel : Region := {((0 : ℤ), (0 : ℤ))}

/-- Four isolated pixels at the corners of a 5×5 bounding box. -/
def cexR : Region := ([((0:ℤ),(0:ℤ)), (0,4), (4,0), (4,4)] : List Pix).toFinset

/-- Configuration `field_size = 2`, `field_overlap = 1`: full field width 4, field area 16,
`fieldPlusOverlap` 3. -/
def cexCfg : GridCfg := { field_size := 2, field_overlap := 1 }

/-- Tiling state whose remaining region is `cexR`: bounding-box area 25 > 16,
so the loop would run. -/
def cexSt : GridState := { imgROI := cexR, mask := cexR, ROIs := [], iFov := 1 }

/-- Region `cexR` after one loop iteration: the candidate at (0,0) is rejected and
the 1-pixel crop removes only the anchor, leaving the same bounding box. -/
def cexR' : Region := ([((0:ℤ),(4:ℤ)), (4,0), (4,4)] : List Pix).toFinset

/-- The state reached from `cexSt` by one `gridStep`. -/
def cexSt' : GridState := { imgROI := cexR', mask := cexR', ROIs := [], iFov := 1 }

/-- A one-pixel manager ROI used as pre-existing manager content. -/
def mgrROI : Froi := Froi.simple onePixel

/-- A non-composite ROI handed directly to `cleanUpROI`. -/
def plainROI : Froi := Froi.simple smallSq

/-- Two connected pieces: a 1×1 sliver and a 3×3 main piece. -/
def cexPieces : List Region := [intRect 6 6 1 1, intRect 0 0 3 3]

/-- A two-piece composite ROI made of `cexPieces`. -/
def compositeROI : Froi := Froi.composite cexPieces

/-!
## Theorems

Supporting lemmas first, then one theorem per claim (with its witness or
counterexample where required).
-/

/-- Mapping `microToU` over a character list without a micro sign leaves it
unchanged. -/
lemma map_microToU_of_not_mem (l : List Char) (h : microSign ∉ l) :
    l.map microToU = l := by
  induction l with
  | nil => rfl
  | cons c cs ih =>
    simp only [List.mem_cons, not_or] at h
    simp only [List.map_cons, ih h.2, List.cons.injEq, and_true]
    rw [microToU, if_neg (fun hc => h.1 hc.symm)]

/-- C6: `combineROIs` applied to a one-element list returns that region
unchanged, and applied to an empty list it fails: `ROIs[0]` raises the
`IndexError` that realises the spec's `EmptyInputError`. -/
theorem combineROIs_single_and_empty :
    (∀ R : Region, combineROIs [R] = .ok R) ∧
    combineROIs ([] : List Region) = .error PyErr.indexError :=
  ⟨fun _ => rfl, rfl⟩

/-- C8: for every region and calibration, `getROIArea` returns the covered
pixel count times the square of the per-pixel physical x-scale, and the
calibration's unit with `'_Squared'` appended and every micro sign replaced
by `'u'`. -/
theorem getROIArea_pixelCount_and_unit (ROI : Region) (imgCal : Calibration) :
    getROIArea ROI imgCal =
      ((ROI.card : ℚ) * imgCal.pixelWidth ^ 2,
        (imgCal.unit ++ squaredSuffix).map microToU) := by
  unfold getROIArea
  refine Prod.ext ?_ ?_
  · simp [roiStatisticsArea, calGetX]
  · by_cases h : microSign ∈ imgCal.unit ++ squaredSuffix
    · simp [h]
    · simp [h, map_microToU_of_not_mem _ h]

/-- C2 (amended): `isContained` compares bounding-box area estimates
(`getFloatWidth() * getFloatHeight()`), not point counts: a region contained
in another is accepted, and acceptance holds exactly when the relative
difference of the bounding-box areas is strictly below the 1% tolerance. -/
theorem isContained_bbox_tolerance (a b : Region) :
    (a ⊆ b → isContained a b = true) ∧
    (isContained a b = true ↔
      |bboxArea (a ∩ b) - bboxArea a| / bboxArea a < 1 / 100) := by
  have hdef : isContained a b =
      decide (|bboxArea (b ∩ a) - bboxArea a| / bboxArea a < 1 / 100) := rfl
  constructor
  · intro hsub
    rw [hdef, Finset.inter_eq_right.mpr hsub]
    simp only [sub_self, abs_zero, zero_div, decide_eq_true_eq]
    norm_num
  · rw [hdef, Finset.inter_comm b a]
    exact decide_eq_true_iff

/-- C2 witness: a square strictly inside a larger square is accepted by
`isContained`. -/
theorem isContained_bbox_tolerance_witness :
    smallSq ⊆ bigSq ∧ isContained smallSq bigSq = true :=
  ⟨by with_unfolding_all decide,
    (isContained_bbox_tolerance smallSq bigSq).1 (by with_unfolding_all decide)⟩

/-- C2 counterexample: `isContained` accepts `cexCand` inside `cexCont`
(their bounding boxes agree), although the intersection covers only 7 of the
candidate's 16 pixels, so the claimed point-count comparison is outside the
1% tolerance. -/
theorem isContained_pointcount_cex :
    isContained cexCand cexCont = true ∧
    ¬ (|(((cexCand ∩ cexCont).card : ℚ)) - ((cexCand.card : ℚ))| /
        ((cexCand.card : ℚ)) < 1 / 100) := by
  constructor
  · with_unfolding_all decide
  · with_unfolding_all decide

/-- C4: with both extracted regions absent, all three counts are zero and the
comparator returns `(NaN, NaN)`; with exactly one absent and the other
non-empty, the intersection count is 0, union and total equal the non-absent
region's point count, and the result is `(0, 0)`. -/
theorem getDC_JI_blank_cases (canvas1 canvas2 : Region) :
    (segCounts none none = .ok (0, 0, 0) ∧
      getDC_JI none none canvas1 canvas2 true none = .ok (none, none)) ∧
    ∀ B : Region, B.Nonempty →
      segCounts none (some B) = .ok (0, (B.card : ℚ), (B.card : ℚ)) ∧
      segCounts (some B) none = .ok (0, (B.card : ℚ), (B.card : ℚ)) ∧
      getDC_JI none (some B) canvas1 canvas2 true none = .ok (some 0, some 0) ∧
      getDC_JI (some B) none canvas1 canvas2 true none = .ok (some 0, some 0) := by
  constructor
  · constructor
    · rfl
    · simp [getDC_JI, segCounts]
  · intro B hB
    have hcard : (0 : ℚ) < (B.card : ℚ) := by
      exact_mod_cast Finset.card_pos.mpr hB
    refine ⟨rfl, rfl, ?_, ?_⟩ <;>
      simp [getDC_JI, segCounts, hcard, gt_iff_lt, zero_div]

/-- C7: for non-empty extracted regions the comparator returns pure numbers
(no NaN): jaccard is intersection over union and dice is twice the
intersection over the total, both within `[0, 1]`; comparing a segmentation
with itself gives exactly `(1, 1)`. -/
theorem getDC_JI_bounds_and_identity (A B : Region) (hA : A.Nonempty) (hB : B.Nonempty) :
    (∃ d j : ℚ,
      getDC_JI (some A) (some B) A B true none = .ok (some d, some j) ∧
      j = ((A ∩ B).card : ℚ) / ((A ∪ B).card : ℚ) ∧
      d = 2 * ((A ∩ B).card : ℚ) / ((A.card : ℚ) + (B.card : ℚ)) ∧
      0 ≤ j ∧ j ≤ 1 ∧ 0 ≤ d ∧ d ≤ 1) ∧
    getDC_JI (some A) (some A) A A true none = .ok (some 1, some 1) := by
  have hUnion : (0 : ℚ) < ((A ∪ B).card : ℚ) := by
    exact_mod_cast Finset.card_pos.mpr (hA.mono Finset.subset_union_left)
  have hTot : (0 : ℚ) < (A.card : ℚ) + (B.card : ℚ) := by
    have : (0 : ℚ) < (A.card : ℚ) := by exact_mod_cast Finset.card_pos.mpr hA
    have hB' : (0 : ℚ) ≤ (B.card : ℚ) := by positivity
    linarith
  have hInterUnion : ((A ∩ B).card : ℚ) ≤ ((A ∪ B).card : ℚ) := by
    exact_mod_cast Finset.card_le_card (Finset.inter_subset_union)
  have hInterTot : 2 * ((A ∩ B).card : ℚ) ≤ (A.card : ℚ) + (B.card : ℚ) := by
    have h1 : ((A ∩ B).card : ℚ) ≤ (A.card : ℚ) := by
      exact_mod_cast Finset.card_le_card Finset.inter_subset_left
    have h2 : ((A ∩ B).card : ℚ) ≤ (B.card : ℚ) := by
      exact_mod_cast Finset.card_le_card Finset.inter_subset_right
    linarith
  constructor
  · refine ⟨2 * ((A ∩ B).card : ℚ) / ((A.card : ℚ) + (B.card : ℚ)),
      ((A ∩ B).card : ℚ) / ((A ∪ B).card : ℚ), ?_, rfl, rfl, ?_, ?_, ?_, ?_⟩
    · simp [getDC_JI, segCounts, combineROIs, getIntersectingROI, hUnion, hTot,
        Finset.inter_comm B A]
    · positivity
    · exact div_le_one_of_le₀ hInterUnion (le_of_lt hUnion)
    · positivity
    · exact div_le_one_of_le₀ hInterTot (le_of_lt hTot)
  · have hcardA : (0 : ℚ) < (A.card : ℚ) := by exact_mod_cast Finset.card_pos.mpr hA
    have hself : ((A ∩ A).card : ℚ) = (A.card : ℚ) := by rw [Finset.inter_self]
    simp [getDC_JI, segCounts, combineROIs, getIntersectingROI, Finset.inter_self,
      Finset.union_self, hcardA, div_self (ne_of_gt hcardA), gt_iff_lt]
    rw [div_eq_one_iff_eq (by linarith)]
    ring

/-- C4 witness: the blank-versus-non-empty cases evaluated at a one-pixel
region. -/
theorem getDC_JI_blank_cases_witness :
    onePixel.Nonempty ∧
    getDC_JI none (some onePixel) ∅ ∅ true none = .ok (some 0, some 0) :=
  ⟨⟨((0 : ℤ), (0 : ℤ)), by with_unfolding_all decide⟩,
    ((getDC_JI_blank_cases ∅ ∅).2 onePixel
      ⟨((0 : ℤ), (0 : ℤ)), by with_unfolding_all decide⟩).2.2.1⟩

/-- C7 witness: comparing the one-pixel segmentation with itself yields
`(1, 1)`. -/
theorem getDC_JI_bounds_and_identity_witness :
    getDC_JI (some onePixel) (some onePixel) onePixel onePixel true none =
      .ok (some 1, some 1) :=
  (getDC_JI_bounds_and_identity onePixel onePixel
    ⟨((0 : ℤ), (0 : ℤ)), by with_unfolding_all decide⟩
    ⟨((0 : ℤ), (0 : ℤ)), by with_unfolding_all decide⟩).2

/-- Folding `max` over a list stays above the seed and every element, and
returns the seed or an element. -/
lemma foldl_max_spec (xs : List ℚ) (x : ℚ) :
    (xs.foldl max x = x ∨ xs.foldl max x ∈ xs) ∧
    x ≤ xs.foldl max x ∧ ∀ a ∈ xs, a ≤ xs.foldl max x := by
  induction xs generalizing x with
  | nil => exact ⟨Or.inl rfl, le_rfl, by simp⟩
  | cons y ys ih =>
    obtain ⟨hmem, hseed, helem⟩ := ih (max x y)
    refine ⟨?_, ?_, ?_⟩
    · rcases hmem with h | h
      · rcases max_choice x y with hc | hc
        · exact Or.inl (by rw [List.foldl_cons, h, hc])
        · exact Or.inr (by rw [List.foldl_cons, h, hc]; exact List.mem_cons_self y ys)
      · exact Or.inr (List.mem_cons_of_mem y h)
    · exact le_trans (le_max_left x y) hseed
    · intro a ha
      rcases List.mem_cons.mp ha with rfl | ha
      · exact le_trans (le_max_right x a) hseed
      · exact helem a ha


/-- Python `max(list)` on a non-empty list is a member and an upper bound. -/
lemma pyMax_spec (l : List ℚ) (hl : l ≠ []) :
    pyMax l ∈ l ∧ ∀ a ∈ l, a ≤ pyMax l := by
  match l with
  | [] => exact absurd rfl hl
  | x :: xs =>
    obtain ⟨hmem, hseed, helem⟩ := foldl_max_spec xs x
    constructor
    · rcases hmem with h | h
      · rw [pyMax, h]; exact List.mem_cons_self x xs
      · exact List.mem_cons_of_mem x h
    · intro a ha
      rcases List.mem_cons.mp ha with rfl | ha
      · exact hseed
      · exact helem a ha

/-- The Jython `lst[areas.index(max(areas))]` pattern of `cleanUpROI`:
on a non-empty list it picks an element whose measure is maximal. -/
lemma getD_findIdx_pyMax (S : List Froi) (f : Froi → ℚ) (hS : S ≠ []) (d : Froi) :
    ∃ r, r ∈ S ∧
      S.getD ((S.map f).findIdx (fun a => a == pyMax (S.map f))) d = r ∧
      ∀ q ∈ S, f q ≤ f r := by
  have hl : S.map f ≠ [] := by
    intro hc
    exact hS (List.map_eq_nil_iff.mp hc)
  obtain ⟨hmem, hle⟩ := pyMax_spec (S.map f) hl
  have hidx : (S.map f).findIdx (fun a => a == pyMax (S.map f)) < (S.map f).length :=
    List.findIdx_lt_length_of_exists ⟨pyMax (S.map f), hmem, by simp⟩
  have hidxS : (S.map f).findIdx (fun a => a == pyMax (S.map f)) < S.length := by
    simpa using hidx
  refine ⟨S.get ⟨_, hidxS⟩, List.get_mem S _ hidxS, List.getD_eq_get S d hidxS, ?_⟩
  intro q hq
  have h2 := List.findIdx_getElem (w := hidx)
  simp only [List.getElem_map, beq_iff_eq] at h2
  simp only [List.get_eq_getElem]
  rw [h2]
  exact hle (f q) (List.mem_map_of_mem f hq)

/-- Restoring a stashed non-empty manager reproduces it exactly. -/
lemma addOpenROIs_restore (mgr : List Froi) (h : mgr ≠ []) :
    addOpenROIs [] (getOpenROIs mgr) = mgr := by
  match mgr with
  | [] => exact absurd rfl h
  | [r] => rfl
  | a :: b :: t => rfl

/-- C9 (amended): on a multi-piece composite, `cleanUpROI` returns the
connected piece with the largest bounding-box area; the non-composite guard
lives in the caller `selectNonBlackRegion`, which skips the cleanup and
returns the selection unchanged. -/
theorem cleanUpROI_largest_component (mgr : List Froi) (pieces : List Region)
    (hp : pieces ≠ []) :
    (∃ p ∈ pieces,
      (cleanUpROI mgr (.composite pieces)).toOption.map Prod.fst = some (.simple p) ∧
      ∀ q ∈ pieces, bboxArea q ≤ bboxArea p) ∧
    (∀ ROI : Froi, ROI.isComposite = false →
      selectNonBlackRegion mgr (some ROI) true = .ok (some ROI, mgr)) := by
  constructor
  · obtain ⟨p0, ps, rfl⟩ := List.exists_cons_of_ne_nil hp
    have hS : (p0 :: ps).map Froi.simple ≠ [] := by simp
    obtain ⟨r, hrS, hget, hrmax⟩ :=
      getD_findIdx_pyMax ((p0 :: ps).map Froi.simple)
        (fun ROI => bboxArea ROI.pts) hS (.simple ∅)
    obtain ⟨p, hpmem, rfl⟩ := List.mem_map.mp hrS
    refine ⟨p, hpmem, ?_, ?_⟩
    · have hres : cleanUpROI mgr (.composite (p0 :: ps)) =
          .ok (((p0 :: ps).map Froi.simple).getD
              ((((p0 :: ps).map Froi.simple).map (fun ROI => bboxArea ROI.pts)).findIdx
                (fun a => a == pyMax (((p0 :: ps).map Froi.simple).map
                  (fun ROI => bboxArea ROI.pts)))) (.simple ∅),
            addOpenROIs [] (getOpenROIs mgr)) := rfl
      rw [hres, hget]
      rfl
    · intro q hq
      have := hrmax (.simple q) (List.mem_map_of_mem Froi.simple hq)
      simpa [Froi.pts] using this
  · intro ROI h
    simp [selectNonBlackRegion, h]

/-- C9 witness: the two-piece composite keeps its 3×3 piece, and the caller's
guard returns a non-composite selection unchanged. -/
theorem cleanUpROI_largest_component_witness :
    cexPieces ≠ [] ∧ plainROI.isComposite = false ∧
    (∃ p ∈ cexPieces,
      (cleanUpROI [mgrROI] (.composite cexPieces)).toOption.map Prod.fst = some (.simple p) ∧
      ∀ q ∈ cexPieces, bboxArea q ≤ bboxArea p) ∧
    selectNonBlackRegion [mgrROI] (some plainROI) true = .ok (some plainROI, [mgrROI]) :=
  ⟨by simp [cexPieces], rfl,
    (cleanUpROI_largest_component [mgrROI] cexPieces (by simp [cexPieces])).1,
    (cleanUpROI_largest_component [mgrROI] cexPieces (by simp [cexPieces])).2 plainROI rfl⟩

/-- C9 counterexample: `cleanUpROI` applied directly to a non-composite
region is not a no-op returning the region: the `Split` command adds no
pieces, `getOpenROIs()` hands back a bare `Roi`, and slicing it raises
`TypeError`. -/
theorem cleanUpROI_noncomposite_cex :
    cleanUpROI [mgrROI] plainROI = .error PyErr.typeError := rfl

/-- C10: whenever the ROI Manager holds at least one ROI at entry,
`saveROIs` and `openROIFile` leave it exactly as found, and so does every
normally-completing `cleanUpROI` call. -/
theorem manager_contents_restored (mgr : List Froi) (hmgr : mgr ≠ []) :
    (∀ ROIs : Froi ⊕ List Froi, saveROIs mgr ROIs = mgr) ∧
    (∀ fileROIs : List Froi, (openROIFile mgr fileROIs).2 = mgr) ∧
    (∀ (ROI : Froi) (out : Froi × List Froi), cleanUpROI mgr ROI = .ok out → out.2 = mgr) := by
  refine ⟨?_, ?_, ?_⟩
  · intro ROIs
    match mgr with
    | [] => exact absurd rfl hmgr
    | [r] => rfl
    | a :: b :: t => rfl
  · intro fileROIs
    match mgr with
    | [] => exact absurd rfl hmgr
    | [r] => rfl
    | a :: b :: t => rfl
  · intro ROI out h
    match ROI with
    | .simple pts =>
      have h' : (Except.error PyErr.typeError : Except PyErr (Froi × List Froi)) =
          .ok out := h
      exact Except.noConfusion h'
    | .composite [] =>
      have h' : (Except.error PyErr.typeError : Except PyErr (Froi × List Froi)) =
          .ok out := h
      exact Except.noConfusion h'
    | .composite (p :: ps) =>
      have h2 : (cleanUpROI mgr (.composite (p :: ps))).map Prod.snd =
          Except.ok (addOpenROIs [] (getOpenROIs mgr)) := rfl
      rw [h] at h2
      simp only [Except.map] at h2
      rw [Except.ok.injEq] at h2
      rw [h2]
      exact addOpenROIs_restore mgr hmgr

/-- C10 witness: evaluated on a one-element manager. -/
theorem manager_contents_restored_witness :
    saveROIs [mgrROI] (Sum.inl plainROI) = [mgrROI] ∧
    (openROIFile [mgrROI] [plainROI]).2 = [mgrROI] ∧
    ((cleanUpROI [mgrROI] compositeROI = .ok (Froi.simple (intRect 0 0 3 3), [mgrROI])) →
      [mgrROI] = [mgrROI]) ∧
    cleanUpROI [mgrROI] compositeROI = .ok (Froi.simple (intRect 0 0 3 3), [mgrROI]) := by
  refine ⟨(manager_contents_restored [mgrROI] (by simp)).1 (Sum.inl plainROI),
    (manager_contents_restored [mgrROI] (by simp)).2.1 [plainROI], ?_, ?_⟩
  · intro h
    exact (manager_contents_restored [mgrROI] (by simp)).2.2 compositeROI _ h ▸ rfl
  · with_unfolding_all decide

/-- The default-valued minimum of a non-empty integer finset is a member. -/
lemma untop'_min_mem (s : Finset ℤ) (hs : s.Nonempty) : s.min.untop' 0 ∈ s := by
  obtain ⟨a, ha⟩ := Finset.min_of_nonempty hs
  rw [ha, WithTop.untop'_coe]
  exact Finset.mem_of_min ha

/-- The top-left anchor of a non-empty region is one of its pixels. -/
lemma intTopLeft_mem (R : Region) (h : R.Nonempty) : intTopLeft R ∈ R := by
  have hx : minX R ∈ R.image Prod.fst := by
    have := untop'_min_mem (R.image Prod.fst) (h.image Prod.fst)
    simpa [minX] using this
  obtain ⟨p, hp, hpx⟩ := Finset.mem_image.mp hx
  have hT : (R.filter (fun q => q.1 = minX R)).Nonempty :=
    ⟨p, Finset.mem_filter.mpr ⟨hp, hpx⟩⟩
  have hy := untop'_min_mem ((R.filter (fun q => q.1 = minX R)).image Prod.snd)
    (hT.image Prod.snd)
  obtain ⟨q, hq, hqy⟩ := Finset.mem_image.mp hy
  obtain ⟨hqR, hqx⟩ := Finset.mem_filter.mp hq
  have : intTopLeft R = q := by
    unfold intTopLeft
    rw [Prod.ext_iff]
    exact ⟨hqx.symm, hqy.symm⟩
  rw [this]
  exact hqR

/-- With the axis-aligned geometry and a crop width of at least one pixel, the
crop of `cropNewField` always removes the top-left anchor pixel, so the
remaining mask strictly shrinks. -/
lemma crop_removes_anchor (rot : ℚ) (cw : ℤ) (hcw : 1 ≤ cw) (M : Region)
    (hM : M.Nonempty) :
    M \ axisGeom.cropPixels
        (makeRotatedR0I (getTopLeftPoint M) ((⌈(cw : ℚ) / 2⌉ : ℤ) : ℚ) rot)
        ⌊(cw : ℚ) / 2⌋ ⊂ M := by
  have haM : intTopLeft M ∈ M := intTopLeft_mem M hM
  have hcwQ : (0 : ℚ) < (cw : ℚ) / 2 := by
    have : (0 : ℚ) < (cw : ℚ) := by exact_mod_cast lt_of_lt_of_le Int.zero_lt_one hcw
    positivity
  have hW : (0 : ℤ) < ⌈(cw : ℚ) / 2⌉ := Int.ceil_pos.mpr hcwQ
  have hn : (0 : ℤ) ≤ ⌊(cw : ℚ) / 2⌋ := Int.floor_nonneg.mpr (le_of_lt hcwQ)
  have hamem : intTopLeft M ∈ axisGeom.cropPixels
      (makeRotatedR0I (getTopLeftPoint M) ((⌈(cw : ℚ) / 2⌉ : ℤ) : ℚ) rot)
      ⌊(cw : ℚ) / 2⌋ := by
    simp only [axisGeom, makeRotatedR0I, getTopLeftPoint, intRect, Finset.mem_product,
      Finset.mem_Ico, Int.floor_intCast]
    refine ⟨⟨by omega, by omega⟩, by omega, by omega⟩
  rw [Finset.ssubset_iff_of_subset (Finset.sdiff_subset)]
  exact ⟨intTopLeft M, haM, by simp [Finset.mem_sdiff, hamem]⟩

/-- A successful `gridStep` with the axis-aligned geometry strictly shrinks
the mask (the crop removes at least the anchor pixel) and re-establishes the
`imgROI = mask` invariant. -/
lemma gridStep_axis_ssub (rot : ℚ) (cfg : GridCfg) (st st' : GridState)
    (hfs : 1 ≤ cfg.field_size) (hfo : 1 ≤ cfg.field_overlap)
    (hinv : st.imgROI = st.mask)
    (h : gridStep axisGeom rot cfg st = .ok st') :
    st'.mask ⊂ st.mask ∧ st'.imgROI = st'.mask := by
  simp only [gridStep, cropNewField] at h
  rw [hinv] at h
  set cw : ℤ := (if isContainedField axisGeom (makeRotatedR0I (getTopLeftPoint st.mask)
      ((cfg.field_size + 2 * cfg.field_overlap : ℤ) : ℚ) rot) st.mask = true
    then cfg.field_size + cfg.field_overlap else cfg.field_overlap) with hcwdef
  have hcw : 1 ≤ cw := by
    rw [hcwdef]
    split <;> omega
  split at h
  · rename_i o heq
    rw [Except.ok.injEq] at h
    subst h
    split at heq
    · rename_i hne
      rw [Option.some.injEq] at heq
      exact ⟨crop_removes_anchor rot cw hcw st.mask (hne.mono Finset.sdiff_subset), heq.symm⟩
    · exact Option.noConfusion heq
  · exact Except.noConfusion h

/-- A `gridStep` can only fail with `attributeError`, never with the fuel
marker. -/
lemma gridStep_ne_nonTermination (g : IJGeom) (rot : ℚ) (cfg : GridCfg)
    (st : GridState) : gridStep g rot cfg st ≠ .error .nonTermination := by
  intro h
  simp only [gridStep, cropNewField] at h
  split at h
  · exact Except.noConfusion h
  · rw [Except.error.injEq] at h
    exact PyErr.noConfusion h

/-- With the axis-aligned geometry, positive field size and overlap, and the
`imgROI = mask` invariant, a fuel budget of the mask's pixel count never runs
out: every iteration removes at least one pixel. -/
lemma gridLoop_axis_no_fuel_error (cfg : GridCfg)
    (hfs : 1 ≤ cfg.field_size) (hfo : 1 ≤ cfg.field_overlap) :
    ∀ (fuel : ℕ) (st : GridState), st.imgROI = st.mask → st.mask.card ≤ fuel →
      gridLoop axisGeom 0 cfg fuel st ≠ .error .nonTermination := by
  intro fuel
  induction fuel with
  | zero =>
    intro st hinv hcard
    have hempty : st.mask = ∅ := Finset.card_eq_zero.mp (Nat.le_zero.mp hcard)
    have hArea : bboxArea st.imgROI = 0 := by
      rw [hinv, hempty]
      simp [bboxArea, floatWidth]
    have hguard : ¬ bboxArea st.imgROI >
        (((cfg.field_size + 2 * cfg.field_overlap) ^ 2 : ℤ) : ℚ) := by
      rw [hArea]
      simp only [gt_iff_lt, not_lt]
      positivity
    have hunf : gridLoop axisGeom 0 cfg 0 st =
        (if bboxArea st.imgROI >
            (((cfg.field_size + 2 * cfg.field_overlap) ^ 2 : ℤ) : ℚ) then
          (Except.error PyErr.nonTermination : Except PyErr GridState)
        else Except.ok st) := rfl
    rw [hunf, if_neg hguard]
    exact fun hc => Except.noConfusion hc
  | succ n ih =>
    intro st hinv hcard
    have hunf : gridLoop axisGeom 0 cfg (n + 1) st =
        (if bboxArea st.imgROI >
            (((cfg.field_size + 2 * cfg.field_overlap) ^ 2 : ℤ) : ℚ) then
          (match gridStep axisGeom 0 cfg st with
            | Except.error e => Except.error e
            | Except.ok st' => gridLoop axisGeom 0 cfg n st')
        else Except.ok st) := rfl
    rw [hunf]
    by_cases hg : bboxArea st.imgROI >
        (((cfg.field_size + 2 * cfg.field_overlap) ^ 2 : ℤ) : ℚ)
    · rw [if_pos hg]
      cases hstep : gridStep axisGeom 0 cfg st with
      | error e =>
        intro hc
        have hc' : (Except.error e : Except PyErr GridState) =
            Except.error PyErr.nonTermination := hc
        rw [Except.error.injEq] at hc'
        rw [hc'] at hstep
        exact gridStep_ne_nonTermination axisGeom 0 cfg st hstep
      | ok st' =>
        obtain ⟨hss, hinv'⟩ := gridStep_axis_ssub 0 cfg st st' hfs hfo hinv hstep
        have hcard' : st'.mask.card ≤ n := by
          have := Finset.card_lt_card hss
          omega
        exact ih st' hinv' hcard'
    · rw [if_neg hg]
      exact fun hc => Except.noConfusion hc

/-- C3 (amended): with the axis-aligned geometry and positive field size and
overlap, every successful iteration strictly shrinks the remaining mask (the
crop always removes the anchor pixel, though a rejected tile only crops a
`field_overlap`-sized square), so a fuel budget of the initial mask's pixel
count is never exhausted: the loop terminates within that many iterations. -/
theorem gridLoop_terminates_by_mask (cfg : GridCfg) (st st' : GridState)
    (hfs : 1 ≤ cfg.field_size) (hfo : 1 ≤ cfg.field_overlap)
    (hinv : st.imgROI = st.mask) :
    (gridStep axisGeom 0 cfg st = .ok st' → st'.mask ⊂ st.mask ∧ st'.imgROI = st'.mask) ∧
    (∀ fuel : ℕ, st.mask.card ≤ fuel →
      gridLoop axisGeom 0 cfg fuel st ≠ .error .nonTermination) :=
  ⟨gridStep_axis_ssub 0 cfg st st' hfs hfo hinv,
    fun fuel hf => gridLoop_axis_no_fuel_error cfg hfs hfo fuel st hinv hf⟩

/-- C3 witness: on the four-corner state the rejected candidate's crop
removes exactly the anchor pixel and the loop finishes within four
iterations. -/
theorem gridLoop_terminates_by_mask_witness :
    (1 ≤ cexCfg.field_size ∧ 1 ≤ cexCfg.field_overlap ∧ cexSt.imgROI = cexSt.mask ∧
      gridStep axisGeom 0 cexCfg cexSt = .ok cexSt' ∧ cexSt.mask.card ≤ 4) ∧
    (cexSt'.mask ⊂ cexSt.mask ∧ cexSt'.imgROI = cexSt'.mask) ∧
    gridLoop axisGeom 0 cexCfg 4 cexSt ≠ .error .nonTermination :=
  ⟨⟨by decide, by decide, rfl, by with_unfolding_all decide, by with_unfolding_all decide⟩,
    (gridLoop_terminates_by_mask cexCfg cexSt cexSt' (by decide) (by decide) rfl).1
      (by with_unfolding_all decide),
    (gridLoop_terminates_by_mask cexCfg cexSt cexSt' (by decide) (by decide) rfl).2 4
      (by with_unfolding_all decide)⟩

/-- C3 counterexample: an iteration that runs (the remaining bounding-box
area 25 exceeds the field area 16) but leaves `remainingArea` completely
unchanged: the rejected tile's crop removes a single corner pixel without
moving the bounding box, so no iteration bound of the form "remainingArea
drops by at least one field's footprint" holds. -/
theorem gridStep_area_not_reduced_cex :
    gridStep axisGeom 0 cexCfg cexSt = .ok cexSt' ∧
    bboxArea cexSt.imgROI >
      (((cexCfg.field_size + 2 * cexCfg.field_overlap) ^ 2 : ℤ) : ℚ) ∧
    bboxArea cexSt'.imgROI = bboxArea cexSt.imgROI := by
  refine ⟨?_, ?_, ?_⟩ <;> with_unfolding_all decide

/-- Rewriting `pymod r (-90)` as `-90` times the fractional part of `r / -90`. -/
lemma pymod_neg90_eq (r : ℚ) : pymod r (-90) = -90 * Int.fract (r / -90) := by
  have hr : (-90 : ℚ) * (r / -90) = r := by field_simp
  rw [pymod, Int.fract, mul_sub, hr]

/-- Python's `r % -90` lies in the interval `(-90, 0]`. -/
lemma pymod_neg90_bounds (r : ℚ) : -90 < pymod r (-90) ∧ pymod r (-90) ≤ 0 := by
  rw [pymod_neg90_eq]
  have h0 := Int.fract_nonneg (r / -90)
  have h1 := Int.fract_lt_one (r / -90)
  constructor <;> nlinarith

/-- Normalising an already normalised rotation is the identity. -/
lemma pymod_neg90_idem (r : ℚ) : pymod (pymod r (-90)) (-90) = pymod r (-90) := by
  obtain ⟨hlo, hhi⟩ := pymod_neg90_bounds r
  have h3 : (0 : ℚ) ≤ pymod r (-90) / -90 := by
    rw [div_neg, neg_nonneg]
    exact div_nonpos_of_nonpos_of_nonneg hhi (by norm_num)
  have h4 : pymod r (-90) / -90 < 1 := by
    rw [div_neg]
    have : (-1 : ℚ) < pymod r (-90) / 90 := by
      rw [lt_div_iff₀ (by norm_num : (0 : ℚ) < 90)]
      linarith
    linarith
  have hfl : ⌊pymod r (-90) / (-90)⌋ = 0 := by
    rw [Int.floor_eq_zero_iff]
    exact Set.mem_Ico.mpr ⟨h3, h4⟩
  rw [pymod, hfl]
  simp

/-- C5: the tiler normalises its rotation argument to `(-90, 0]` via
`rotation % -90` before any use, so tiling with `450` and tiling with
`450 % -90` run identically — in particular every emitted field carries the
same rotation angle. -/
theorem gridOfFields_rotation_normalized (g : IJGeom) (imgROI0 : Region)
    (field_size field_overlap : ℤ) (fuel : ℕ) :
    (∀ r : ℚ, -90 < pymod r (-90) ∧ pymod r (-90) ≤ 0) ∧
    (∀ r : ℚ, gridOfFieldsInit g imgROI0 field_size field_overlap r fuel =
      gridOfFieldsInit g imgROI0 field_size field_overlap (pymod r (-90)) fuel) ∧
    gridOfFieldsInit g imgROI0 field_size field_overlap 450 fuel =
      gridOfFieldsInit g imgROI0 field_size field_overlap (pymod 450 (-90)) fuel := by
  refine ⟨pymod_neg90_bounds, ?_, ?_⟩
  · intro r
    unfold gridOfFieldsInit
    rw [pymod_neg90_idem]
  · unfold gridOfFieldsInit
    rw [pymod_neg90_idem]

/-- When the initial relevant region's bounding-box area does not exceed one
field's area, the loop body never runs, `self.ROIs` stays empty, and
`self.ROIs[0]` raises `IndexError`. -/
lemma gridOfFieldsInit_small (g : IJGeom) (imgROI0 : Region)
    (field_size field_overlap : ℤ) (r : ℚ) (fuel : ℕ)
    (h : ¬ bboxArea imgROI0 >
      (((field_size + 2 * field_overlap) ^ 2 : ℤ) : ℚ)) :
    gridOfFieldsInit g imgROI0 field_size field_overlap r fuel =
      .error .indexError := by
  have hloop : gridLoop g (pymod r (-90)) ⟨field_size, field_overlap⟩ fuel
      ⟨imgROI0, imgROI0, [], 1⟩ = .ok ⟨imgROI0, imgROI0, [], 1⟩ := by
    match fuel with
    | 0 =>
      have hunf : gridLoop g (pymod r (-90)) ⟨field_size, field_overlap⟩ 0
          ⟨imgROI0, imgROI0, [], 1⟩ =
          (if bboxArea imgROI0 >
              (((field_size + 2 * field_overlap) ^ 2 : ℤ) : ℚ) then
            (Except.error PyErr.nonTermination : Except PyErr GridState)
          else Except.ok ⟨imgROI0, imgROI0, [], 1⟩) := rfl
      rw [hunf, if_neg h]
    | n + 1 =>
      have hunf : gridLoop g (pymod r (-90)) ⟨field_size, field_overlap⟩ (n + 1)
          ⟨imgROI0, imgROI0, [], 1⟩ =
          (if bboxArea imgROI0 >
              (((field_size + 2 * field_overlap) ^ 2 : ℤ) : ℚ) then
            (match gridStep g (pymod r (-90)) ⟨field_size, field_overlap⟩
                ⟨imgROI0, imgROI0, [], 1⟩ with
              | Except.error e => Except.error e
              | Except.ok st' =>
                gridLoop g (pymod r (-90)) ⟨field_size, field_overlap⟩ n st')
          else Except.ok ⟨imgROI0, imgROI0, [], 1⟩) := rfl
      rw [hunf, if_neg h]
  simp only [gridOfFieldsInit, gridOfFieldsMain]
  rw [hloop]
  rfl

/-- C1: on an image whose relevant region is a single pixel (bounding extent
far below one field's area), `gridOfFields` produces zero fields but then
fails with `IndexError` at `self.ROIs[0]` instead of returning the empty
list. -/
theorem gridOfFields_small_region_raises :
    bboxArea onePixel < (((100 + 2 * 10) ^ 2 : ℤ) : ℚ) ∧
    gridOfFieldsInit axisGeom onePixel 100 10 0 3 = .error PyErr.indexError :=
  ⟨by with_unfolding_all decide,
    gridOfFieldsInit_small axisGeom onePixel 100 10 0 3 (by with_unfolding_all decide)⟩

end ROITools
